import Mathlib

/-!
Verification of the provider-orchestration core of the stockron backend.

This development shallowly embeds the multi-provider fetch orchestrator
(`MasterAgent` in `src/providers/stockron_master_agent.py`), the Yahoo
provider client (`src/providers/yahoo_agent.py`, plus the top-level
near-duplicate `yahoo_agent.py`), the AlphaVantage fallback agent
(`src/providers/alpha_agent.py`), and the news orchestrator
(`src/providers/news_master_agent.py`).

Modelling conventions:
* Time (`time.time()`) is a natural number of seconds, passed explicitly.
* Network I/O is an oracle: each upstream HTTP GET together with its JSON
  parse is an input of type `UpstreamResp`, whose `ok` payload is the value
  the source's parse function would have produced.  The orchestrator only
  ever inspects emptiness of the quote dictionary, so dictionary contents
  are modelled as association lists of strings.
* Python exceptions crossing a function boundary become `Except` values;
  exceptions swallowed inside a function are handled in place, as in the
  source.
* Mutable objects shared through the agent pool are modelled by passing the
  pool explicitly and updating it with `List.set` at the selected position.
-/

/-- Dictionary produced by `parse_quote_summary`; only its emptiness is ever
inspected (Python truthiness of `data.get("raw_quote")`), so values are kept
as opaque strings. -/
abbrev QuoteDict := List (String × String)

/-- Dictionary produced by `parse_chart_response` (contents never inspected
by the orchestrator). -/
abbrev ChartData := List (String × String)

/-- Outcome of one upstream HTTP GET together with its parse, as seen by
`YahooAgent.fetch`: a 429 status, an `httpx.HTTPError`, a generic exception
from `r.json()` (malformed payload), or a parsed value. -/
inductive UpstreamResp (α : Type) where
  | rateLimited : UpstreamResp α
  | httpError : UpstreamResp α
  | jsonError : UpstreamResp α
  | ok (val : α) : UpstreamResp α
deriving Repr, DecidableEq

/-- Exception propagated out of `YahooAgent.fetch`: the re-raised
`Exception("RateLimit")`. -/
inductive FetchErr where
  | rateLimit : FetchErr
deriving Repr, DecidableEq

/-- Return dictionary of `YahooAgent.fetch`.  The `source` key is absent
(`none`) until `MasterAgent.fetch_financials` writes it. -/
structure FetchData where
  provider : String
  agent : String
  raw_quote : QuoteDict
  raw_chart : Option ChartData
  source : Option String := none
deriving Repr, DecidableEq

/-- Provider client of `src/providers/yahoo_agent.py`: identity plus a
cooldown-until timestamp.  The `httpx.Client` session and headers carry no
orchestration-relevant state and are omitted. -/
structure YahooAgent where
  id : Nat
  name : String
  cooldown_until : Nat
deriving Repr, DecidableEq

/-- Constructor of `YahooAgent` as in `YahooAgent.__init__`: name
`f"YahooAgent-{id}"`, cooldown 0. -/
def mkYahooAgent (i : Nat) : YahooAgent :=
  { id := i, name := "YahooAgent-" ++ toString i, cooldown_until := 0 }

/-- Embedding of `YahooAgent.is_available` (providers version):
`time.time() >= (self.cooldown_until or 0)`. -/
def YahooAgent.is_available (a : YahooAgent) (now : Nat) : Bool :=
  decide (a.cooldown_until ≤ now)

/-- Embedding of `YahooAgent.set_cooldown`:
`self.cooldown_until = time.time() + seconds`. -/
def YahooAgent.set_cooldown (a : YahooAgent) (now seconds : Nat) : YahooAgent :=
  { a with cooldown_until := now + seconds }

/-- Embedding of `YahooAgent.fetch`.  The two upstream calls (chart, then
quote summary) are oracle inputs.  A 429 on either call sets a 300 second
cooldown and raises `RateLimit` (the generic handler re-raises it because
the message contains "ratelimit"); an HTTP error or a malformed payload is
swallowed, leaving `chart_parsed = None` or `q_parsed` empty. -/
def YahooAgent.fetch (a : YahooAgent) (now : Nat)
    (chartResp : UpstreamResp (Option ChartData)) (quoteResp : UpstreamResp QuoteDict) :
    YahooAgent × Except FetchErr FetchData :=
  match chartResp with
  | .rateLimited => (a.set_cooldown now 300, .error .rateLimit)
  | _ =>
    let chart_parsed : Option ChartData :=
      match chartResp with
      | .ok v => v
      | _ => none
    match quoteResp with
    | .rateLimited => (a.set_cooldown now 300, .error .rateLimit)
    | _ =>
      let q_parsed : QuoteDict :=
        match quoteResp with
        | .ok v => v
        | _ => []
      (a, .ok { provider := "yahoo", agent := a.name,
                raw_quote := q_parsed, raw_chart := chart_parsed })

/-- Provider client of the top-level near-duplicate `yahoo_agent.py`
(yfinance based): same cooldown state, but `is_available` compares
strictly. -/
structure YahooAgentV2 where
  id : Nat
  name : String
  cooldown_until : Nat
deriving Repr, DecidableEq

/-- Embedding of the top-level variant's `is_available`:
`time.time() > self.cooldown_until` (strict comparison, unlike the
providers version). -/
def YahooAgentV2.is_available (a : YahooAgentV2) (now : Nat) : Bool :=
  decide (a.cooldown_until < now)

/-- Embedding of the top-level variant's `set_cooldown`. -/
def YahooAgentV2.set_cooldown (a : YahooAgentV2) (now seconds : Nat) : YahooAgentV2 :=
  { a with cooldown_until := now + seconds }

/-- Raw OVERVIEW payload fields read by `AlphaAgent.fetch`
(`src/providers/alpha_agent.py`).  Numeric strings are modelled as already
parsed rationals; `none` stands for an absent key, and `float(x or 0)`
becomes `Option.getD 0`.  Field names abbreviate the JSON keys `Symbol`,
`Name`, `Sector`, `PERatio`, `PEGRatio`, `PriceToSalesRatioTTM`,
`ProfitMargin`, `ReturnOnEquityTTM`, `QuarterlyRevenueGrowthYOY`,
`QuarterlyEarningsGrowthYOY`, `DividendYield`, `MarketCapitalization`. -/
structure AlphaRaw where
  symbolK : Option String := none
  nameK : Option String := none
  sectorK : Option String := none
  peK : Option Rat := none
  pegK : Option Rat := none
  psK : Option Rat := none
  profitMarginK : Option Rat := none
  roeK : Option Rat := none
  revGrowthK : Option Rat := none
  epsGrowthK : Option Rat := none
  divYieldK : Option Rat := none
  marketCapK : Option Rat := none
deriving Repr, DecidableEq

/-- Outcome of the AlphaVantage HTTP GET plus `r.json()`: an exception
(network or JSON), a JSON value that is not a dict, or a dict. -/
inductive AlphaUpstream where
  | exn : AlphaUpstream
  | nonDict : AlphaUpstream
  | dict (data : AlphaRaw) : AlphaUpstream
deriving Repr, DecidableEq

/-- Normalized result dictionary built by `AlphaAgent.fetch`. -/
structure AlphaData where
  provider : String
  symbol : Option String
  company_name : Option String
  sector : Option String
  pe_v : Rat
  peg_v : Rat
  ps_v : Rat
  profit_margin : Rat
  roe : Rat
  rev_growth : Rat
  eps_growth : Rat
  dividend_yield : Rat
  market_cap : Rat
deriving Repr, DecidableEq

/-- Embedding of `AlphaAgent.fetch`: returns `None` when the API key is
unset, on any exception, when the payload is not a dict, or when
`data.get("Symbol")` is falsy (absent or empty); otherwise the mapped
field bag. -/
def AlphaAgent.fetch (hasKey : Bool) (resp : AlphaUpstream) : Option AlphaData :=
  if !hasKey then none
  else
    match resp with
    | .exn => none
    | .nonDict => none
    | .dict data =>
      if (data.symbolK.getD "") = "" then none
      else
        some { provider := "alpha_vantage"
               symbol := data.symbolK
               company_name := data.nameK
               sector := data.sectorK
               pe_v := data.peK.getD 0
               peg_v := data.pegK.getD 0
               ps_v := data.psK.getD 0
               profit_margin := data.profitMarginK.getD 0
               roe := data.roeK.getD 0
               rev_growth := (data.revGrowthK.getD 0) * 100
               eps_growth := (data.epsGrowthK.getD 0) * 100
               dividend_yield := (data.divYieldK.getD 0) * 100
               market_cap := data.marketCapK.getD 0 }

/-- Result crossing the `fetch_financials` boundary: either a Yahoo client
dictionary (with `source` written) or the AlphaVantage dictionary. -/
inductive ProviderData where
  | yahoo (d : FetchData) : ProviderData
  | alpha (d : AlphaData) : ProviderData
deriving Repr, DecidableEq

/-- Orchestrator state of `MasterAgent`: the ordered Yahoo pool and the
shared rotation cursor `self.index`. -/
structure MasterAgent where
  yahoo_agents : List YahooAgent
  index : Nat
deriving Repr, DecidableEq

/-- Embedding of the `while attempts < len(self.yahoo_agents)` loop body of
`MasterAgent._get_next_yahoo`, with remaining attempts as fuel: read the
agent at the cursor, advance the cursor modulo the pool size, return the
cursor position scanned if the agent is available, else keep scanning. -/
def scanLoop (agents : List YahooAgent) (now : Nat) : Nat → Nat → Option Nat × Nat
  | 0, idx => (none, idx)
  | fuel+1, idx =>
    match agents[idx]? with
    | none => (none, idx)
    | some agent =>
      if agent.is_available now then (some idx, (idx + 1) % agents.length)
      else scanLoop agents now fuel ((idx + 1) % agents.length)

/-- Embedding of `MasterAgent._get_next_yahoo`: runs the scan loop for at
most pool-size attempts starting at `self.index`, returning the selected
pool position (the Python code returns the aliased agent object) and the
state with the updated cursor. -/
def MasterAgent.get_next_yahoo (m : MasterAgent) (now : Nat) : Option Nat × MasterAgent :=
  let r := scanLoop m.yahoo_agents now m.yahoo_agents.length m.index
  (r.1, { m with index := r.2 })

/-- Per-request environment: the chart and quote upstream outcomes of the
`attempt`-th `YahooAgent.fetch` call made during one request. -/
abbrev YEnv := Nat → UpstreamResp (Option ChartData) × UpstreamResp QuoteDict

/-- Embedding of the `for attempt in range(len(self.yahoo_agents))` dispatch
loop of `MasterAgent.fetch_financials`.  Returns the Yahoo result (if any),
the updated state, and the trace of pool positions returned by the
selection step (instrumentation for the fairness and fallback-count
theorems; it does not influence control flow). -/
def MasterAgent.fetchLoop (now : Nat) (env : YEnv) :
    Nat → Nat → MasterAgent → Option FetchData × MasterAgent × List Nat
  | 0, _, m => (none, m, [])
  | fuel+1, attempt, m =>
    let sel := m.get_next_yahoo now
    match sel.1 with
    | none => (none, sel.2, [])
    | some pos =>
      match sel.2.yahoo_agents[pos]? with
      | none => (none, sel.2, [pos])
      | some agent =>
        let e := env attempt
        let fr := agent.fetch now e.1 e.2
        match fr.2 with
        | .error _ =>
          let agent2 := fr.1.set_cooldown now 300
          let m2 := { sel.2 with yahoo_agents := sel.2.yahoo_agents.set pos agent2 }
          let rest := MasterAgent.fetchLoop now env fuel (attempt+1) m2
          (rest.1, rest.2.1, pos :: rest.2.2)
        | .ok data =>
          let m2 := { sel.2 with yahoo_agents := sel.2.yahoo_agents.set pos fr.1 }
          if data.raw_quote.isEmpty then
            let rest := MasterAgent.fetchLoop now env fuel (attempt+1) m2
            (rest.1, rest.2.1, pos :: rest.2.2)
          else
            (some { data with source := some agent.name }, m2, [pos])

/-- Outcome of one `fetch_financials` request: result, updated orchestrator
state, number of calls made to the AlphaVantage fallback, and the trace of
selected pool positions. -/
structure FetchOutcome where
  result : Option ProviderData
  master : MasterAgent
  alphaCalls : Nat
  selections : List Nat
deriving Repr, DecidableEq

/-- Embedding of `MasterAgent.fetch_financials`: run the dispatch loop over
the pool; on success return the tagged Yahoo data (no fallback call),
otherwise return exactly one `AlphaAgent.fetch` call's result. -/
def MasterAgent.fetch_financials (m : MasterAgent) (now : Nat) (env : YEnv)
    (alphaKey : Bool) (alphaResp : AlphaUpstream) : FetchOutcome :=
  let r := MasterAgent.fetchLoop now env m.yahoo_agents.length 0 m
  match r.1 with
  | some d => { result := some (.yahoo d), master := r.2.1,
                alphaCalls := 0, selections := r.2.2 }
  | none => { result := (AlphaAgent.fetch alphaKey alphaResp).map .alpha, master := r.2.1,
              alphaCalls := 1, selections := r.2.2 }

/-- Initial orchestrator state of `MasterAgent.__init__`: ten Yahoo agents
with ids 1..10, cursor 0. -/
def MasterAgent.init : MasterAgent :=
  { yahoo_agents := (List.range 10).map (fun i => mkYahooAgent (i + 1)), index := 0 }

/-! News orchestrator (`src/providers/news_master_agent.py`). -/

/-- One parsed RSS item; `headline_he` is the key added by a successful
translation (absent, i.e. `none`, otherwise). -/
structure NewsItem where
  headline : String
  url : String
  datetime : String
  source : String
  headline_he : Option String := none
deriving Repr, DecidableEq

/-- Return dictionary of `NewsMasterAgent.get_news`; the all-providers-fail
dictionary carries no `timestamp` key, modelled as `none`. -/
structure NewsResult where
  ticker : String
  count : Nat
  items : List NewsItem
  source : String
  timestamp : Option String := none
deriving Repr, DecidableEq

/-- Class names of the three news agents held by `NewsMasterAgent`, in pool
order. -/
def newsAgentNames : List String := ["YahooNewsAgent", "MarketWatchAgent", "GoogleNewsAgent"]

/-- Embedding of the per-item translation step of `get_news`: on success
the item gains a `headline_he` key, on any exception the untranslated item
is appended unchanged. -/
def translateItem (tr : String → Except Unit String) (n : NewsItem) : NewsItem :=
  match tr n.headline with
  | .ok hebrew => { n with headline_he := some hebrew }
  | .error _ => n

/-- Embedding of the `for i in range(len(self.agents))` loop of
`NewsMasterAgent.get_news`.  `fetchEnv p` is the outcome of `fetch` for the
agent at pool position `p` (an `Exception` or an item list); `tr` is the
translation oracle; `ts` the `datetime.utcnow()` string.  On success the
cursor moves to `(idx + 1) % 3` (note: not `(idx + i + 1)`), on a fetch
exception the loop tries the next agent with the cursor unchanged. -/
def NewsMasterAgent.getNewsAux (ticker : String)
    (fetchEnv : Nat → Except Unit (List NewsItem))
    (tr : String → Except Unit String) (ts : String) (idx : Nat) :
    Nat → Nat → NewsResult × Nat
  | _, 0 => ({ ticker := ticker, count := 0, items := [], source := "None" }, idx)
  | i, fuel+1 =>
    let pos := (idx + i) % newsAgentNames.length
    match fetchEnv pos with
    | .error _ => NewsMasterAgent.getNewsAux ticker fetchEnv tr ts idx (i+1) fuel
    | .ok raw_news =>
      let translated := raw_news.map (translateItem tr)
      ({ ticker := ticker, count := translated.length, items := translated,
         source := newsAgentNames.getD pos "", timestamp := some ts },
       (idx + 1) % newsAgentNames.length)

/-- Embedding of `NewsMasterAgent.get_news`: try each of the three agents
once in rotation order from the cursor; return the first success, or the
count-0 dictionary with source `"None"` when all three fail.  Returns the
dictionary together with the updated cursor. -/
def NewsMasterAgent.get_news (ticker : String)
    (fetchEnv : Nat → Except Unit (List NewsItem))
    (tr : String → Except Unit String) (ts : String) (idx : Nat) : NewsResult × Nat :=
  NewsMasterAgent.getNewsAux ticker fetchEnv tr ts idx 0 newsAgentNames.length

/-! Spec-side helper definitions and general lemmas. -/

/-- Availability of the agent stored at pool position `p` (false when the
position is out of range). -/
def availB (agents : List YahooAgent) (now : Nat) (p : Nat) : Bool :=
  match agents[p]? with
  | some a => a.is_available now
  | none => false

/-- Offset (number of scanned clients minus one) of the first available
client in the sweep starting at cursor `c`, if any: the specification-level
description of the selection loop. -/
def sweepFind (agents : List YahooAgent) (now : Nat) (c : Nat) : Option Nat :=
  (List.range agents.length).find? (fun k => availB agents now ((c + k) % agents.length))

/-- Setting a list position to the element already stored there is the
identity. -/
theorem list_set_self {α : Type} : ∀ (l : List α) (i : Nat) (a : α),
    l[i]? = some a → l.set i a = l
  | [], i, a, h => by simp at h
  | x :: xs, 0, a, h => by
    simp at h
    simp [List.set, h]
  | x :: xs, i+1, a, h => by
    simp at h
    simp [List.set, list_set_self xs i a h]

/-- Characterization of the selection scan: starting at cursor `c < N` with
fuel `f`, it returns the first available client among the `f` sweep
positions `(c+k) % N`, leaving the cursor advanced one past it; with no
available client among them it returns nothing, cursor advanced `f`
times. -/
theorem scanLoop_spec (agents : List YahooAgent) (now : Nat) :
    ∀ (f c : Nat), c < agents.length →
    scanLoop agents now f c =
      match (List.range f).find? (fun k => availB agents now ((c + k) % agents.length)) with
      | some k => (some ((c + k) % agents.length), (c + k + 1) % agents.length)
      | none => (none, (c + f) % agents.length)
  | 0, c, hc => by
    simp [scanLoop, List.range_zero, List.find?_nil, Nat.mod_eq_of_lt hc]
  | f+1, c, hc => by
    have hN : 0 < agents.length := Nat.lt_of_le_of_lt (Nat.zero_le c) hc
    have hget : agents[c]? = some agents[c] := List.getElem?_eq_getElem hc
    have hav0 : availB agents now ((c + 0) % agents.length) = agents[c].is_available now := by
      simp [availB, Nat.mod_eq_of_lt hc, hget]
    rw [List.range_succ_eq_map]
    by_cases hav : agents[c].is_available now = true
    · rw [@List.find?_cons_of_pos Nat (fun k => availB agents now ((c + k) % agents.length)) 0
        (List.map Nat.succ (List.range f))
        (by show availB agents now ((c + 0) % agents.length) = true; rw [hav0]; exact hav)]
      simp only [scanLoop, hget, hav]
      simp [Nat.mod_eq_of_lt hc]
    · rw [@List.find?_cons_of_neg Nat (fun k => availB agents now ((c + k) % agents.length)) 0
        (List.map Nat.succ (List.range f))
        (by show ¬ availB agents now ((c + 0) % agents.length) = true; rw [hav0]; exact hav)]
      have hc1 : (c + 1) % agents.length < agents.length := Nat.mod_lt _ hN
      have ih := scanLoop_spec agents now f ((c + 1) % agents.length) hc1
      simp only [scanLoop, hget, hav, if_false, Bool.false_eq_true, ih]
      rw [List.find?_map]
      have hfun : ∀ k : Nat,
          ((c + 1) % agents.length + k) % agents.length = (c + (k + 1)) % agents.length := by
        intro k
        rw [Nat.mod_add_mod]
        congr 1
        omega
      have hpred : (fun k => availB agents now (((c + 1) % agents.length + k) % agents.length))
          = ((fun k => availB agents now ((c + k) % agents.length)) ∘ Nat.succ) := by
        funext k
        simp [hfun k, Nat.succ_eq_add_one]
      rw [hpred]
      cases hfind : (List.range f).find?
          ((fun k => availB agents now ((c + k) % agents.length)) ∘ Nat.succ) with
      | none =>
        simp only [Option.map_none]
        have : ((c + 1) % agents.length + f) % agents.length = (c + (f + 1)) % agents.length := by
          rw [Nat.mod_add_mod]; congr 1; omega
        simp [this]
      | some k =>
        simp only [Option.map_some]
        have h1 : ((c + 1) % agents.length + k) % agents.length
            = (c + Nat.succ k) % agents.length := by
          rw [Nat.mod_add_mod]; congr 1; omega
        have h2 : ((c + 1) % agents.length + k + 1) % agents.length
            = (c + Nat.succ k + 1) % agents.length := by
          rw [Nat.add_assoc, Nat.mod_add_mod]; congr 1; omega
        simp [h1, h2]

/-- Any position returned by the selection scan holds an agent that was
available at scan time (no index-range hypotheses needed). -/
theorem scanLoop_some_avail (agents : List YahooAgent) (now : Nat) :
    ∀ (f idx p idx1 : Nat), scanLoop agents now f idx = (some p, idx1) →
    ∃ a, agents[p]? = some a ∧ a.is_available now = true
  | 0, idx, p, idx1, h => by simp [scanLoop] at h
  | f+1, idx, p, idx1, h => by
    cases hget : agents[idx]? with
    | none => simp [scanLoop, hget] at h
    | some agent =>
      by_cases hav : agent.is_available now = true
      · simp only [scanLoop, hget, hav, if_true] at h
        have hp : idx = p := by simpa using congrArg Prod.fst h
        exact ⟨agent, hp ▸ hget, hav⟩
      · simp only [scanLoop, hget, hav, if_false] at h
        exact scanLoop_some_avail agents now f ((idx + 1) % agents.length) p idx1 h

/-- The selection step leaves the agent pool untouched (only the cursor
changes). -/
theorem get_next_yahoo_agents (m : MasterAgent) (now : Nat) :
    (m.get_next_yahoo now).2.yahoo_agents = m.yahoo_agents := rfl

/-- Any client returned by `_get_next_yahoo` satisfied `is_available()` at
selection time. -/
theorem get_next_yahoo_some_avail (m : MasterAgent) (now : Nat) (p : Nat)
    (h : (m.get_next_yahoo now).1 = some p) :
    ∃ a, m.yahoo_agents[p]? = some a ∧ a.is_available now = true := by
  have h2 : scanLoop m.yahoo_agents now m.yahoo_agents.length m.index
      = ((m.get_next_yahoo now).1,
         (scanLoop m.yahoo_agents now m.yahoo_agents.length m.index).2) := rfl
  rw [h] at h2
  exact scanLoop_some_avail m.yahoo_agents now m.yahoo_agents.length m.index p _ h2

/-- Every residue `p < N` is hit by the sweep from any cursor `c` within
the first `N` steps: step `(N + p - c % N) % N` lands on `p`. -/
theorem add_mod_hit (N c p : Nat) (hN : 0 < N) (hp : p < N) :
    (c + (N + p - c % N) % N) % N = p := by
  have hcm : c % N < N := Nat.mod_lt _ hN
  have hmd := Nat.mod_add_div c N
  have h1 : c + (N + p - c % N) = N * (c / N) + (N + p) := by omega
  rw [Nat.add_mod_mod, h1, Nat.mul_add_mod, Nat.add_mod_left, Nat.mod_eq_of_lt hp]

/-- The sweep finds no client exactly when no client of the pool is
available. -/
theorem sweepFind_none_iff (agents : List YahooAgent) (now : Nat) (c : Nat)
    (hN : 0 < agents.length) :
    sweepFind agents now c = none ↔
      ∀ (p : Nat) (a : YahooAgent), agents[p]? = some a → a.is_available now = false := by
  rw [sweepFind, List.find?_eq_none]
  constructor
  · intro h p a hpa
    rcases List.getElem?_eq_some.1 hpa with ⟨hplt, hpe⟩
    have hk : (c + (agents.length + p - c % agents.length) % agents.length) % agents.length
        = p := add_mod_hit agents.length c p hN hplt
    have hkmem : (agents.length + p - c % agents.length) % agents.length
        ∈ List.range agents.length := List.mem_range.2 (Nat.mod_lt _ hN)
    have := h _ hkmem
    rw [hk] at this
    simp only [availB, hpa] at this
    simpa using this
  · intro h k _
    simp only [availB]
    cases hget : agents[(c + k) % agents.length]? with
    | none => simp
    | some a => simp [h _ _ hget]

/-- C1.  The selection step of `_get_next_yahoo` is exactly: scan at most
`N` clients starting from the shared cursor `c`, advancing the cursor by
one per scanned client wrapping modulo `N`; if the first available client
is found after scanning `k + 1` clients, return its position
`(c + k) % N` with the cursor at `(c + k + 1) % N`; after a full fruitless
sweep return no client with the cursor back at `c`, and this happens
exactly when no client of the pool is available. -/
theorem get_next_yahoo_selection_spec (m : MasterAgent) (now : Nat)
    (hN : 0 < m.yahoo_agents.length) (hidx : m.index < m.yahoo_agents.length) :
    (m.get_next_yahoo now =
      match sweepFind m.yahoo_agents now m.index with
      | some k => (some ((m.index + k) % m.yahoo_agents.length),
                   { m with index := (m.index + k + 1) % m.yahoo_agents.length })
      | none => (none, m))
    ∧ ((m.get_next_yahoo now).1 = none ↔
        ∀ (p : Nat) (a : YahooAgent), m.yahoo_agents[p]? = some a →
          a.is_available now = false) := by
  have hs := scanLoop_spec m.yahoo_agents now m.yahoo_agents.length m.index hidx
  have hdef : m.get_next_yahoo now =
      ((scanLoop m.yahoo_agents now m.yahoo_agents.length m.index).1,
       { m with index := (scanLoop m.yahoo_agents now m.yahoo_agents.length m.index).2 }) := rfl
  have hmain : m.get_next_yahoo now =
      match sweepFind m.yahoo_agents now m.index with
      | some k => (some ((m.index + k) % m.yahoo_agents.length),
                   { m with index := (m.index + k + 1) % m.yahoo_agents.length })
      | none => (none, m) := by
    rw [hdef, hs]
    simp only [sweepFind]
    cases hf : (List.range m.yahoo_agents.length).find?
        (fun k => availB m.yahoo_agents now ((m.index + k) % m.yahoo_agents.length)) with
    | none =>
      have hback : (m.index + m.yahoo_agents.length) % m.yahoo_agents.length = m.index := by
        rw [Nat.add_mod_right]; exact Nat.mod_eq_of_lt hidx
      simp [hback]
    | some k => simp
  refine ⟨hmain, ?_⟩
  rw [hmain]
  cases hf : sweepFind m.yahoo_agents now m.index with
  | none =>
    simp only [hf]
    simp [← sweepFind_none_iff m.yahoo_agents now m.index hN, hf]
  | some k =>
    simp only [hf]
    constructor
    · intro h; simp at h
    · intro h
      exfalso
      have : sweepFind m.yahoo_agents now m.index = none :=
        (sweepFind_none_iff m.yahoo_agents now m.index hN).2 h
      rw [hf] at this
      exact Option.noConfusion this

/-- Witness for C1: in the initial orchestrator state at time 0 every agent
is available, so the characterization applies and the first client is
selected with the cursor advanced to 1. -/
theorem get_next_yahoo_selection_spec_witness :
    MasterAgent.init.get_next_yahoo 0 = (some 0, { MasterAgent.init with index := 1 }) := by
  have h := (get_next_yahoo_selection_spec MasterAgent.init 0 (by decide) (by decide)).1
  rw [h]
  rfl

/-- Quote dictionary produced by the quote-summary section of
`YahooAgent.fetch` for a non-429 outcome: the parsed dictionary on success,
empty after a swallowed error. -/
def quoteOf (qr : UpstreamResp QuoteDict) : QuoteDict :=
  match qr with
  | .ok q => q
  | _ => []

/-- Chart value produced by the chart section of `YahooAgent.fetch` for a
non-429 outcome. -/
def chartOf (cr : UpstreamResp (Option ChartData)) : Option ChartData :=
  match cr with
  | .ok v => v
  | _ => none

/-- Upstream outcome pair on which the dispatch loop treats the attempt as
failed: a 429 on either call (fetch raises), or an empty parsed quote
dictionary (fetch returns, but `data.get("raw_quote")` is falsy). -/
def respFails (e : UpstreamResp (Option ChartData) × UpstreamResp QuoteDict) : Prop :=
  e.1 = .rateLimited ∨ e.2 = .rateLimited ∨ quoteOf e.2 = []

/-- With no 429 on either call, `fetch` raises nothing, leaves the agent
untouched (no cooldown side effect) and returns the result dictionary. -/
theorem fetch_no_rateLimit (a : YahooAgent) (now : Nat)
    (cr : UpstreamResp (Option ChartData)) (qr : UpstreamResp QuoteDict)
    (hcr : cr ≠ .rateLimited) (hqr : qr ≠ .rateLimited) :
    a.fetch now cr qr =
      (a, .ok { provider := "yahoo", agent := a.name,
                raw_quote := quoteOf qr, raw_chart := chartOf cr }) := by
  cases cr <;> cases qr <;> simp_all [YahooAgent.fetch, quoteOf, chartOf]

/-- With a 429 on either call, `fetch` sets a 300 second cooldown from `now`
and raises `RateLimit`. -/
theorem fetch_rateLimit (a : YahooAgent) (now : Nat)
    (cr : UpstreamResp (Option ChartData)) (qr : UpstreamResp QuoteDict)
    (hRL : cr = .rateLimited ∨ qr = .rateLimited) :
    a.fetch now cr qr = (a.set_cooldown now 300, .error .rateLimit) := by
  rcases hRL with h | h
  · subst h; rfl
  · subst h; cases cr <;> rfl

/-- When the agent at the cursor is available, the selection step returns
the cursor position and advances the cursor by one. -/
theorem get_next_yahoo_at_cursor (m : MasterAgent) (now : Nat) (a : YahooAgent)
    (hidx : m.index < m.yahoo_agents.length)
    (ha : m.yahoo_agents[m.index]? = some a) (hav : a.is_available now = true) :
    m.get_next_yahoo now =
      (some m.index, { m with index := (m.index + 1) % m.yahoo_agents.length }) := by
  have hN : 0 < m.yahoo_agents.length := Nat.lt_of_le_of_lt (Nat.zero_le _) hidx
  have hmain := (get_next_yahoo_selection_spec m now hN hidx).1
  have hrange : List.range m.yahoo_agents.length
      = 0 :: List.map Nat.succ (List.range (m.yahoo_agents.length - 1)) := by
    rw [← List.range_succ_eq_map]
    congr 1
    omega
  have hfind : sweepFind m.yahoo_agents now m.index = some 0 := by
    rw [sweepFind, hrange]
    exact List.find?_cons_of_pos _
      (by show availB m.yahoo_agents now ((m.index + 0) % m.yahoo_agents.length) = true
          simp [availB, Nat.mod_eq_of_lt hidx, ha, hav])
  rw [hmain, hfind]
  simp [Nat.mod_eq_of_lt hidx]

/-- Dispatch-loop step on a successful fetch: when the agent at the cursor
is available and its fetch returns a non-empty quote dictionary, the loop
returns that data tagged with the agent's name, the cursor advanced once,
and a single selection. -/
theorem fetchLoop_success_step (m : MasterAgent) (now : Nat) (env : YEnv)
    (fuel attempt : Nat) (a : YahooAgent) (cd : Option ChartData) (q : QuoteDict)
    (hidx : m.index < m.yahoo_agents.length)
    (ha : m.yahoo_agents[m.index]? = some a) (hav : a.is_available now = true)
    (henv : env attempt = (.ok cd, .ok q)) (hq : q ≠ []) :
    MasterAgent.fetchLoop now env (fuel+1) attempt m =
      (some { provider := "yahoo", agent := a.name, raw_quote := q,
              raw_chart := cd, source := some a.name },
       { m with index := (m.index + 1) % m.yahoo_agents.length },
       [m.index]) := by
  have hsel := get_next_yahoo_at_cursor m now a hidx ha hav
  have hfetch := fetch_no_rateLimit a now (.ok cd) (.ok q) (by simp) (by simp)
  have hset : m.yahoo_agents.set m.index a = m.yahoo_agents := list_set_self _ _ _ ha
  have hqe : q.isEmpty = false := by
    cases q with
    | nil => exact absurd rfl hq
    | cons x xs => rfl
  simp only [MasterAgent.fetchLoop, hsel, ha, henv, hfetch, quoteOf, chartOf, hqe,
    Bool.false_eq_true, if_false, hset]

/-- Dispatch-loop step on a transient failure (no 429 on either call, empty
parsed quote): the loop leaves the agent untouched (no cooldown), records
the selection, and continues with the next attempt from the advanced
cursor. -/
theorem fetchLoop_transient_step (m : MasterAgent) (now : Nat) (env : YEnv)
    (fuel attempt : Nat) (a : YahooAgent)
    (hidx : m.index < m.yahoo_agents.length)
    (ha : m.yahoo_agents[m.index]? = some a) (hav : a.is_available now = true)
    (hcr : (env attempt).1 ≠ .rateLimited) (hqr : (env attempt).2 ≠ .rateLimited)
    (hqe : quoteOf (env attempt).2 = []) :
    MasterAgent.fetchLoop now env (fuel+1) attempt m =
      ((MasterAgent.fetchLoop now env fuel (attempt+1)
          { m with index := (m.index + 1) % m.yahoo_agents.length }).1,
       (MasterAgent.fetchLoop now env fuel (attempt+1)
          { m with index := (m.index + 1) % m.yahoo_agents.length }).2.1,
       m.index :: (MasterAgent.fetchLoop now env fuel (attempt+1)
          { m with index := (m.index + 1) % m.yahoo_agents.length }).2.2) := by
  have hsel := get_next_yahoo_at_cursor m now a hidx ha hav
  have hfetch := fetch_no_rateLimit a now (env attempt).1 (env attempt).2 hcr hqr
  have hset : m.yahoo_agents.set m.index a = m.yahoo_agents := list_set_self _ _ _ ha
  have hqe2 : (quoteOf (env attempt).2).isEmpty = true := by rw [hqe]; rfl
  simp only [MasterAgent.fetchLoop, hsel, ha, hfetch, hqe2, if_true, hset]

/-- C7.  With every client of the pool available and the first attempted
client's fetch returning a valid non-empty result, `fetch_financials`
returns that result immediately, tagged with the attempted client's name
as `source`, with zero fallback-provider calls (and a single selection). -/
theorem fetch_financials_first_success (m : MasterAgent) (now : Nat) (env : YEnv)
    (alphaKey : Bool) (alphaResp : AlphaUpstream) (a : YahooAgent)
    (cd : Option ChartData) (q : QuoteDict)
    (hidx : m.index < m.yahoo_agents.length)
    (ha : m.yahoo_agents[m.index]? = some a)
    (hava : ∀ x ∈ m.yahoo_agents, x.is_available now = true)
    (henv : env 0 = (.ok cd, .ok q)) (hq : q ≠ []) :
    m.fetch_financials now env alphaKey alphaResp =
      { result := some (.yahoo { provider := "yahoo", agent := a.name, raw_quote := q,
                                 raw_chart := cd, source := some a.name }),
        master := { m with index := (m.index + 1) % m.yahoo_agents.length },
        alphaCalls := 0, selections := [m.index] } := by
  obtain ⟨f, hf⟩ : ∃ f, m.yahoo_agents.length = f + 1 := ⟨m.yahoo_agents.length - 1, by omega⟩
  have hav : a.is_available now = true := by
    rcases List.getElem?_eq_some.1 ha with ⟨hlt, he⟩
    exact hava _ (he ▸ List.getElem_mem hlt)
  have hstep := fetchLoop_success_step m now env f 0 a cd q hidx ha hav henv hq
  rw [hf] at hstep
  simp only [MasterAgent.fetch_financials, hf, hstep]

/-- C5.  On a per-client transient failure (no 429: network error or
malformed/empty payload, leaving the parsed quote empty) the failing
client's cooldown is not touched — it sits unchanged in the final pool —
and the orchestrator advances to the next client, which serves the
request. -/
theorem transient_no_cooldown_orchestrator_advances (m : MasterAgent) (now : Nat)
    (env : YEnv) (alphaKey : Bool) (alphaResp : AlphaUpstream) (a b : YahooAgent)
    (cd : Option ChartData) (q : QuoteDict)
    (hN2 : 2 ≤ m.yahoo_agents.length)
    (hidx : m.index < m.yahoo_agents.length)
    (ha : m.yahoo_agents[m.index]? = some a)
    (hb : m.yahoo_agents[(m.index + 1) % m.yahoo_agents.length]? = some b)
    (hava : a.is_available now = true) (havb : b.is_available now = true)
    (hcr : (env 0).1 ≠ .rateLimited) (hqr : (env 0).2 ≠ .rateLimited)
    (hqe : quoteOf (env 0).2 = [])
    (henv1 : env 1 = (.ok cd, .ok q)) (hq : q ≠ []) :
    m.fetch_financials now env alphaKey alphaResp =
      { result := some (.yahoo { provider := "yahoo", agent := b.name, raw_quote := q,
                                 raw_chart := cd, source := some b.name }),
        master := { m with index := ((m.index + 1) % m.yahoo_agents.length + 1)
                             % m.yahoo_agents.length },
        alphaCalls := 0,
        selections := [m.index, (m.index + 1) % m.yahoo_agents.length] }
    ∧ (m.fetch_financials now env alphaKey alphaResp).master.yahoo_agents[m.index]?
        = some a := by
  obtain ⟨f, hf⟩ : ∃ f, m.yahoo_agents.length = f + 2 := ⟨m.yahoo_agents.length - 2, by omega⟩
  have hN : 0 < m.yahoo_agents.length := by omega
  have hstep1 := fetchLoop_transient_step m now env (f+1) 0 a hidx ha hava hcr hqr hqe
  have hidx2 : (m.index + 1) % m.yahoo_agents.length < m.yahoo_agents.length :=
    Nat.mod_lt _ hN
  have hstep2 := fetchLoop_success_step
    { m with index := (m.index + 1) % m.yahoo_agents.length } now env f 1 b cd q
    hidx2 hb havb henv1 hq
  have hloop : MasterAgent.fetchLoop now env (f+2) 0 m =
      (some { provider := "yahoo", agent := b.name, raw_quote := q,
              raw_chart := cd, source := some b.name },
       { m with index := ((m.index + 1) % m.yahoo_agents.length + 1)
                  % m.yahoo_agents.length },
       [m.index, (m.index + 1) % m.yahoo_agents.length]) := by
    rw [show f + 2 = (f + 1) + 1 from rfl, hstep1, hstep2]
  constructor
  · rw [← hf] at hloop
    simp only [MasterAgent.fetch_financials, hloop]
  · rw [← hf] at hloop
    simp only [MasterAgent.fetch_financials, hloop, ha]

/-- All attempts of the dispatch loop fail (429 or empty quote on every
attempt), so the loop returns no Yahoo data, whatever the state. -/
theorem fetchLoop_all_fail (now : Nat) (env : YEnv) (hfail : ∀ k, respFails (env k)) :
    ∀ (fuel attempt : Nat) (m : MasterAgent),
      (MasterAgent.fetchLoop now env fuel attempt m).1 = none
  | 0, _, m => rfl
  | fuel+1, attempt, m => by
    cases hsel : (m.get_next_yahoo now).1 with
    | none => simp only [MasterAgent.fetchLoop, hsel]
    | some pos =>
      cases hag : (m.get_next_yahoo now).2.yahoo_agents[pos]? with
      | none => simp only [MasterAgent.fetchLoop, hsel, hag]
      | some agent =>
        have hf := hfail attempt
        by_cases hRL : (env attempt).1 = .rateLimited ∨ (env attempt).2 = .rateLimited
        · have hfetch := fetch_rateLimit agent now (env attempt).1 (env attempt).2 hRL
          simp only [MasterAgent.fetchLoop, hsel, hag, hfetch]
          exact fetchLoop_all_fail now env hfail fuel (attempt+1) _
        · push_neg at hRL
          have hfetch := fetch_no_rateLimit agent now (env attempt).1 (env attempt).2
            hRL.1 hRL.2
          have hqe : quoteOf (env attempt).2 = [] := by
            rcases hf with h | h | h
            · exact absurd h hRL.1
            · exact absurd h hRL.2
            · exact h
          simp only [MasterAgent.fetchLoop, hsel, hag, hfetch, hqe, List.isEmpty_nil,
            if_true]
          exact fetchLoop_all_fail now env hfail fuel (attempt+1) _

/-- C3 (amended).  When every primary-pool attempt fails, `fetch_financials`
makes exactly one fallback call to the AlphaVantage provider and returns
that call's result unchanged; when the secondary also fails this is `None`
— no aggregate error object and no underlying error message are produced,
and no tertiary provider exists in the call chain. -/
theorem all_primary_fail_single_fallback (m : MasterAgent) (now : Nat) (env : YEnv)
    (alphaKey : Bool) (alphaResp : AlphaUpstream)
    (hfail : ∀ k, respFails (env k)) :
    (m.fetch_financials now env alphaKey alphaResp).alphaCalls = 1
    ∧ (m.fetch_financials now env alphaKey alphaResp).result
        = (AlphaAgent.fetch alphaKey alphaResp).map ProviderData.alpha := by
  have h := fetchLoop_all_fail now env hfail m.yahoo_agents.length 0 m
  constructor
  · simp only [MasterAgent.fetch_financials, h]
  · simp only [MasterAgent.fetch_financials, h]

/-- Witness for C3: in the initial state, with every attempt rate-limited,
exactly one AlphaVantage call is made and its (successful) result is
returned unchanged. -/
theorem all_primary_fail_single_fallback_witness :
    (MasterAgent.init.fetch_financials 5 (fun _ => (.rateLimited, .rateLimited)) true
        (.dict { symbolK := some "NVDA" })).alphaCalls = 1
    ∧ (MasterAgent.init.fetch_financials 5 (fun _ => (.rateLimited, .rateLimited)) true
        (.dict { symbolK := some "NVDA" })).result
        = (AlphaAgent.fetch true (.dict { symbolK := some "NVDA" })).map
            ProviderData.alpha :=
  all_primary_fail_single_fallback MasterAgent.init 5 (fun _ => (.rateLimited, .rateLimited))
    true (.dict { symbolK := some "NVDA" }) (fun _ => Or.inl rfl)

/-- Counterexample for C3 as stated: at concrete total-failure inputs the
caller receives `none` — the same value whatever the last underlying error
was (a rate limit in the first run, a network error and a non-dict payload
in the second), and the same value `AlphaAgent.fetch` alone produces on a
per-provider failure.  No aggregate error object carrying the last error
message exists in the code. -/
theorem total_failure_returns_none_cex :
    (MasterAgent.init.fetch_financials 0 (fun _ => (.rateLimited, .rateLimited)) true
        .exn).result = none
    ∧ (MasterAgent.init.fetch_financials 0 (fun _ => (.httpError, .jsonError)) false
        .nonDict).result = none
    ∧ AlphaAgent.fetch true .exn = none := by
  refine ⟨?_, ?_, rfl⟩ <;> rfl

/-- C2.  Each client's state is a single cooldown deadline: at any time it
is either available, or unavailable with the time strictly before the
deadline (cooling down until it); and the selection step only ever returns
clients that satisfy `is_available()` at selection time, so a cooling-down
client is never selected while the sweep can still reach an available
one. -/
theorem client_two_states_and_selection_availability :
    (∀ (a : YahooAgent) (t : Nat),
        a.is_available t = true ∨ (a.is_available t = false ∧ t < a.cooldown_until))
    ∧ ∀ (m : MasterAgent) (t p : Nat), (m.get_next_yahoo t).1 = some p →
        ∃ a, m.yahoo_agents[p]? = some a ∧ a.is_available t = true := by
  constructor
  · intro a t
    by_cases h : a.cooldown_until ≤ t
    · exact Or.inl (by simp [YahooAgent.is_available, h])
    · exact Or.inr ⟨by simp [YahooAgent.is_available]; omega, by omega⟩
  · intro m t p h
    exact get_next_yahoo_some_avail m t p h

/-- Witness for C2: in the initial state at time 0 the selection step
returns position 0, and the theorem yields its availability. -/
theorem client_two_states_and_selection_availability_witness :
    ∃ a, MasterAgent.init.yahoo_agents[0]? = some a ∧ a.is_available 0 = true :=
  client_two_states_and_selection_availability.2 MasterAgent.init 0 0 rfl

/-- C4.  A 429 on either upstream call makes the client set its own
cooldown to 300 seconds from now before the failure propagates as the
`RateLimit` exception, and for the whole window any orchestrator state
holding a client with such a deadline at some pool position never selects
that position, across any number of independent requests. -/
theorem rate_limit_cooldown_excludes_client (a : YahooAgent) (now : Nat)
    (cr : UpstreamResp (Option ChartData)) (qr : UpstreamResp QuoteDict)
    (hRL : cr = .rateLimited ∨ qr = .rateLimited) :
    ((a.fetch now cr qr).1.cooldown_until = now + 300
      ∧ (a.fetch now cr qr).2 = .error .rateLimit)
    ∧ ∀ (t : Nat) (m : MasterAgent) (p : Nat) (a2 : YahooAgent),
        m.yahoo_agents[p]? = some a2 → now + 300 ≤ a2.cooldown_until →
        t < now + 300 → (m.get_next_yahoo t).1 ≠ some p := by
  constructor
  · rw [fetch_rateLimit a now cr qr hRL]
    exact ⟨rfl, rfl⟩
  · intro t m p a2 hpa hcd ht hsel
    rcases get_next_yahoo_some_avail m t p hsel with ⟨a3, hpa3, hav⟩
    rw [hpa] at hpa3
    cases hpa3
    simp only [YahooAgent.is_available, decide_eq_true_eq] at hav
    omega

/-- Witness for C4: agent 1 is rate-limited at time 10 (deadline 310), and
a pool holding it is still refusing to select it at time 100. -/
theorem rate_limit_cooldown_excludes_client_witness :
    ((mkYahooAgent 1).fetch 10 .rateLimited (.ok [])).1.cooldown_until = 10 + 300
    ∧ (({ yahoo_agents := [((mkYahooAgent 1).fetch 10 .rateLimited (.ok [])).1],
          index := 0 } : MasterAgent).get_next_yahoo 100).1 ≠ some 0 := by
  have h := rate_limit_cooldown_excludes_client (mkYahooAgent 1) 10 .rateLimited (.ok [])
    (Or.inl rfl)
  exact ⟨h.1.1, h.2 100 _ 0 _ rfl (by decide) (by decide)⟩

/-- C8 (amended).  Availability is a pure comparison of the current time
with the stored deadline, with no state change, in both variants — but
the comparison differs: the providers-package client is available exactly
when `now` is at or past the deadline, while the top-level variant is
available exactly when `now` is strictly past it. -/
theorem is_available_pure_characterization :
    (∀ (a : YahooAgent) (t : Nat), a.is_available t = true ↔ a.cooldown_until ≤ t)
    ∧ (∀ (a : YahooAgentV2) (t : Nat), a.is_available t = true ↔ a.cooldown_until < t) := by
  constructor
  · intro a t; simp [YahooAgent.is_available]
  · intro a t; simp [YahooAgentV2.is_available]

/-- Witness for C8: both characterizations evaluated at concrete clients
and times. -/
theorem is_available_pure_characterization_witness :
    (mkYahooAgent 1).is_available 5 = true
    ∧ YahooAgentV2.is_available { id := 1, name := "YahooAgent#1", cooldown_until := 3 } 5
        = true :=
  ⟨(is_available_pure_characterization.1 (mkYahooAgent 1) 5).2 (by decide),
   (is_available_pure_characterization.2
      { id := 1, name := "YahooAgent#1", cooldown_until := 3 } 5).2 (by decide)⟩

/-- Counterexample for C8 as stated: the top-level variant compares
strictly, so at the boundary time equal to the deadline (client with
deadline 5, current time 5) it returns `false` although the current time
is at (hence at or past) the deadline — refuting "returns true iff the
current time is at or past the stored deadline" for every client. -/
theorem is_available_boundary_cex :
    ¬ (∀ (a : YahooAgentV2) (t : Nat), a.is_available t = true ↔ a.cooldown_until ≤ t) := by
  intro h
  have := (h { id := 1, name := "YahooAgent#1", cooldown_until := 5 } 5).2 (by decide)
  simp [YahooAgentV2.is_available] at this

/-- Environment pair on which an attempted fetch fully succeeds: both calls
return parsed payloads and the quote dictionary is non-empty. -/
def envSucc (e : UpstreamResp (Option ChartData) × UpstreamResp QuoteDict) : Prop :=
  ∃ cd q, e = (.ok cd, .ok q) ∧ q ≠ []

/-- Sequential requests against the shared orchestrator state: request `r`
uses environment `env2 r`; returns the concatenated selection trace and
the final state. -/
def runRequests (now : Nat) (env2 : Nat → YEnv) (alphaKey : Bool)
    (alphaResp : AlphaUpstream) : Nat → Nat → MasterAgent → List Nat × MasterAgent
  | _, 0, m => ([], m)
  | r, M+1, m =>
    let out := m.fetch_financials now (env2 r) alphaKey alphaResp
    let rest := runRequests now env2 alphaKey alphaResp (r+1) M out.master
    (out.selections ++ rest.1, rest.2)

/-- A request whose first attempt succeeds selects exactly the cursor
position and advances the cursor by one, leaving the pool unchanged. -/
theorem fetch_financials_state_step (m : MasterAgent) (now : Nat) (env : YEnv)
    (alphaKey : Bool) (alphaResp : AlphaUpstream)
    (hidx : m.index < m.yahoo_agents.length)
    (hava : ∀ x ∈ m.yahoo_agents, x.is_available now = true)
    (hE : envSucc (env 0)) :
    (m.fetch_financials now env alphaKey alphaResp).master
      = { m with index := (m.index + 1) % m.yahoo_agents.length }
    ∧ (m.fetch_financials now env alphaKey alphaResp).selections = [m.index] := by
  rcases hE with ⟨cd, q, he, hq⟩
  obtain ⟨f, hf⟩ : ∃ f, m.yahoo_agents.length = f + 1 := ⟨m.yahoo_agents.length - 1, by omega⟩
  have ha : m.yahoo_agents[m.index]? = some m.yahoo_agents[m.index] :=
    List.getElem?_eq_getElem hidx
  have hav : m.yahoo_agents[m.index].is_available now = true :=
    hava _ (List.getElem_mem hidx)
  have hstep := fetchLoop_success_step m now env f 0 m.yahoo_agents[m.index] cd q
    hidx ha hav he hq
  rw [hf] at hstep
  constructor
  · simp only [MasterAgent.fetch_financials, hf, hstep]
  · simp only [MasterAgent.fetch_financials, hf, hstep]

/-- Selection trace of `M` all-successful sequential requests from a fully
available pool: the positions `(c + k) % N` for `k < M`. -/
theorem runRequests_trace (now : Nat) (env2 : Nat → YEnv) (alphaKey : Bool)
    (alphaResp : AlphaUpstream) (hE : ∀ r, envSucc (env2 r 0)) :
    ∀ (M r : Nat) (m : MasterAgent), m.index < m.yahoo_agents.length →
      (∀ x ∈ m.yahoo_agents, x.is_available now = true) →
      (runRequests now env2 alphaKey alphaResp r M m).1
        = (List.range M).map (fun k => (m.index + k) % m.yahoo_agents.length)
  | 0, r, m, hidx, hava => by simp [runRequests]
  | M+1, r, m, hidx, hava => by
    have hN : 0 < m.yahoo_agents.length := Nat.lt_of_le_of_lt (Nat.zero_le _) hidx
    have hstep := fetch_financials_state_step m now (env2 r) alphaKey alphaResp
      hidx hava (hE r)
    have hidx2 : (m.fetch_financials now (env2 r) alphaKey alphaResp).master.index
        < (m.fetch_financials now (env2 r) alphaKey alphaResp).master.yahoo_agents.length := by
      rw [hstep.1]
      exact Nat.mod_lt _ hN
    have hava2 : ∀ x ∈ (m.fetch_financials now (env2 r) alphaKey alphaResp).master.yahoo_agents,
        x.is_available now = true := by
      rw [hstep.1]
      exact hava
    have ih := runRequests_trace now env2 alphaKey alphaResp hE M (r+1)
      (m.fetch_financials now (env2 r) alphaKey alphaResp).master hidx2 hava2
    rw [hstep.1] at ih
    simp only [runRequests, hstep.1, hstep.2, ih]
    rw [List.range_succ_eq_map, List.map_cons, List.singleton_append, List.map_map]
    congr 1
    · simp [Nat.mod_eq_of_lt hidx]
    · apply List.map_congr_left
      intro k _
      show ((m.index + 1) % m.yahoo_agents.length + k) % m.yahoo_agents.length
          = (m.index + Nat.succ k) % m.yahoo_agents.length
      rw [Nat.mod_add_mod]
      congr 1
      omega

/-- Count of the residue class `k0 < N` among `0, 1, ..., M-1`. -/
theorem countP_mod_range (N k0 : Nat) (hN : 0 < N) (hk0 : k0 < N) :
    ∀ M : Nat, (List.range M).countP (fun k => decide (k % N = k0))
      = (M + N - 1 - k0) / N
  | 0 => by
    rw [List.range_zero, List.countP_nil]
    symm
    exact Nat.div_eq_of_lt (by omega)
  | M+1 => by
    rw [List.range_succ, List.countP_append, countP_mod_range N k0 hN hk0 M]
    have hsum : M + 1 + N - 1 - k0 = (M + N - 1 - k0) + 1 := by omega
    rw [hsum, Nat.succ_div]
    have hiff : M % N = k0 ↔ N ∣ M + N - 1 - k0 + 1 := by
      have harg : M + N - 1 - k0 + 1 = M + N - k0 := by omega
      rw [harg]
      by_cases hk : k0 ≤ M
      · constructor
        · intro h
          have hme : k0 ≡ M [MOD N] := by
            show k0 % N = M % N
            rw [h, Nat.mod_eq_of_lt hk0]
          have hd : N ∣ M - k0 := (Nat.modEq_iff_dvd' hk).1 hme
          have hsp : M + N - k0 = (M - k0) + N := by omega
          rw [hsp]
          exact Nat.dvd_add hd dvd_rfl
        · intro h
          have hsp : M + N - k0 = (M - k0) + N := by omega
          rw [hsp] at h
          have hd : N ∣ M - k0 := (Nat.dvd_add_self_right).1 h
          have hme : k0 ≡ M [MOD N] := (Nat.modEq_iff_dvd' hk).2 hd
          have : M % N = k0 % N := hme.symm
          rw [Nat.mod_eq_of_lt hk0] at this
          exact this
      · constructor
        · intro h
          exfalso
          have : M % N = M := Nat.mod_eq_of_lt (by omega)
          omega
        · intro h
          exfalso
          have hx : 0 < M + N - k0 := by omega
          have hxN : M + N - k0 < N := by omega
          exact absurd (Nat.le_of_dvd hx h) (by omega)
    rw [List.countP_cons, List.countP_nil]
    by_cases hmod : M % N = k0
    · rw [if_pos (hiff.1 hmod)]
      simp [hmod]
    · rw [if_neg (fun hdvd => hmod (hiff.2 hdvd))]
      simp [hmod]

/-- Residue change of cursor: sweeping from cursor `c`, step `k` lands on
position `j` exactly when `k` is in the residue class
`(N + j - c % N) % N`. -/
theorem sweep_hits_iff (N c j k : Nat) (hN : 0 < N) (hj : j < N) :
    (c + k) % N = j ↔ k % N = (N + j - c % N) % N := by
  have hk0 : (c + (N + j - c % N) % N) % N = j := add_mod_hit N c j hN hj
  constructor
  · intro h
    have hme : c + k ≡ c + (N + j - c % N) % N [MOD N] := by
      show (c + k) % N = (c + (N + j - c % N) % N) % N
      rw [h, hk0]
    have := Nat.ModEq.add_left_cancel' c hme
    have hlt : (N + j - c % N) % N < N := Nat.mod_lt _ hN
    calc k % N = (N + j - c % N) % N % N := this
    _ = (N + j - c % N) % N := Nat.mod_eq_of_lt hlt
  · intro h
    rw [Nat.add_mod c k N, h, Nat.mod_add_mod]
    exact hk0

/-- C6.  Round-robin fairness: over `M ≥ N` sequential requests in which
every attempted fetch succeeds, each pool position `j` is selected at
least `⌊M/N⌋` and at most `⌈M/N⌉ = (M + N - 1) / N` times. -/
theorem fetch_financials_round_robin_fairness (m : MasterAgent) (now M j : Nat)
    (env2 : Nat → YEnv) (alphaKey : Bool) (alphaResp : AlphaUpstream)
    (hidx : m.index < m.yahoo_agents.length)
    (hava : ∀ x ∈ m.yahoo_agents, x.is_available now = true)
    (hE : ∀ r, envSucc (env2 r 0))
    (hMN : m.yahoo_agents.length ≤ M)
    (hj : j < m.yahoo_agents.length) :
    M / m.yahoo_agents.length
      ≤ (runRequests now env2 alphaKey alphaResp 0 M m).1.count j
    ∧ (runRequests now env2 alphaKey alphaResp 0 M m).1.count j
      ≤ (M + m.yahoo_agents.length - 1) / m.yahoo_agents.length := by
  have hN : 0 < m.yahoo_agents.length := by omega
  rw [runRequests_trace now env2 alphaKey alphaResp hE M 0 m hidx hava]
  rw [List.count_eq_countP, List.countP_map]
  have hcong : (List.range M).countP
      ((fun x => x == j) ∘ (fun k => (m.index + k) % m.yahoo_agents.length))
      = (List.range M).countP
          (fun k => decide (k % m.yahoo_agents.length
            = (m.yahoo_agents.length + j - m.index % m.yahoo_agents.length)
                % m.yahoo_agents.length)) := by
    apply List.countP_congr
    intro k _
    simp only [Function.comp, beq_iff_eq, decide_eq_true_eq]
    exact sweep_hits_iff _ m.index j k hN hj
  rw [hcong, countP_mod_range _ _ hN (Nat.mod_lt _ hN) M]
  have hk0lt : (m.yahoo_agents.length + j - m.index % m.yahoo_agents.length)
      % m.yahoo_agents.length < m.yahoo_agents.length := Nat.mod_lt _ hN
  constructor
  · exact Nat.div_le_div_right (by omega)
  · exact Nat.div_le_div_right (by omega)

/-- Witness for C6: a pool of 2 available clients serving 5 successful
requests; each client is selected between 2 and 3 times; position 1 is
selected exactly as the bounds require. -/
theorem fetch_financials_round_robin_fairness_witness :
    5 / 2 ≤ (runRequests 0 (fun _ _ => (.ok none, .ok [("price", "450")])) false .exn 0 5
        { yahoo_agents := [mkYahooAgent 1, mkYahooAgent 2], index := 0 }).1.count 1
    ∧ (runRequests 0 (fun _ _ => (.ok none, .ok [("price", "450")])) false .exn 0 5
        { yahoo_agents := [mkYahooAgent 1, mkYahooAgent 2], index := 0 }).1.count 1
      ≤ (5 + 2 - 1) / 2 :=
  fetch_financials_round_robin_fairness
    { yahoo_agents := [mkYahooAgent 1, mkYahooAgent 2], index := 0 } 0 5 1
    (fun _ _ => (.ok none, .ok [("price", "450")])) false .exn
    (by decide) (by decide)
    (fun _ => ⟨none, [("price", "450")], rfl, by simp⟩)
    (by decide) (by decide)

/-- Witness for C7: in the initial 10-client state with a successful first
attempt, the result is returned tagged `YahooAgent-1` with zero fallback
calls. -/
theorem fetch_financials_first_success_witness :
    MasterAgent.init.fetch_financials 0
        (fun _ => (.ok none, .ok [("currentPrice", "450")])) true .exn =
      { result := some (.yahoo { provider := "yahoo", agent := "YahooAgent-1",
                                 raw_quote := [("currentPrice", "450")], raw_chart := none,
                                 source := some "YahooAgent-1" }),
        master := { MasterAgent.init with index := 1 },
        alphaCalls := 0, selections := [0] } :=
  fetch_financials_first_success MasterAgent.init 0
    (fun _ => (.ok none, .ok [("currentPrice", "450")])) true .exn (mkYahooAgent 1)
    none [("currentPrice", "450")] (by decide) (by decide) (by decide) rfl (by simp)

/-- Witness for C5: in a 2-client pool where client 0 hits a transient
failure and client 1 succeeds, the request is served by client 1 and
client 0 sits in the final pool unchanged (no cooldown). -/
theorem transient_no_cooldown_orchestrator_advances_witness :
    ({ yahoo_agents := [mkYahooAgent 1, mkYahooAgent 2], index := 0 } :
        MasterAgent).fetch_financials 7
        (fun k => if k = 0 then (.httpError, .jsonError) else (.ok none, .ok [("p", "1")]))
        true .exn =
      { result := some (.yahoo { provider := "yahoo", agent := "YahooAgent-2",
                                 raw_quote := [("p", "1")], raw_chart := none,
                                 source := some "YahooAgent-2" }),
        master := { yahoo_agents := [mkYahooAgent 1, mkYahooAgent 2], index := 0 },
        alphaCalls := 0, selections := [0, 1] }
    ∧ (({ yahoo_agents := [mkYahooAgent 1, mkYahooAgent 2], index := 0 } :
        MasterAgent).fetch_financials 7
        (fun k => if k = 0 then (.httpError, .jsonError) else (.ok none, .ok [("p", "1")]))
        true .exn).master.yahoo_agents[0]? = some (mkYahooAgent 1) :=
  transient_no_cooldown_orchestrator_advances
    { yahoo_agents := [mkYahooAgent 1, mkYahooAgent 2], index := 0 } 7
    (fun k => if k = 0 then (.httpError, .jsonError) else (.ok none, .ok [("p", "1")]))
    true .exn (mkYahooAgent 1) (mkYahooAgent 2) none [("p", "1")]
    (by decide) (by decide) (by decide) (by decide) (by decide) (by decide)
    (by decide) (by decide) (by decide) rfl (by simp)

/-- Count bookkeeping of the news loop: the returned `count` always equals
the length of the returned `items` list. -/
theorem getNewsAux_count (ticker : String) (fetchEnv : Nat → Except Unit (List NewsItem))
    (tr : String → Except Unit String) (ts : String) (idx : Nat) :
    ∀ (fuel i : Nat),
      (NewsMasterAgent.getNewsAux ticker fetchEnv tr ts idx i fuel).1.count
        = (NewsMasterAgent.getNewsAux ticker fetchEnv tr ts idx i fuel).1.items.length
  | 0, i => rfl
  | fuel+1, i => by
    cases hf : fetchEnv ((idx + i) % newsAgentNames.length) with
    | error e =>
      simp only [NewsMasterAgent.getNewsAux, hf]
      exact getNewsAux_count ticker fetchEnv tr ts idx fuel (i+1)
    | ok raw_news => simp [NewsMasterAgent.getNewsAux, hf]

/-- When every provider fetch raises, the news loop falls through to the
failure dictionary, leaving the cursor unchanged. -/
theorem getNewsAux_all_fail (ticker : String) (fetchEnv : Nat → Except Unit (List NewsItem))
    (tr : String → Except Unit String) (ts : String) (idx : Nat)
    (h : ∀ p, fetchEnv p = .error ()) :
    ∀ (fuel i : Nat),
      NewsMasterAgent.getNewsAux ticker fetchEnv tr ts idx i fuel
        = ({ ticker := ticker, count := 0, items := [], source := "None" }, idx)
  | 0, i => rfl
  | fuel+1, i => by
    simp only [NewsMasterAgent.getNewsAux, h ((idx + i) % newsAgentNames.length)]
    exact getNewsAux_all_fail ticker fetchEnv tr ts idx h fuel (i+1)

/-- First news iteration on a successful fetch: the translated list is
returned with the fetching agent's class name and the cursor advanced. -/
theorem getNewsAux_first_ok (ticker : String) (fetchEnv : Nat → Except Unit (List NewsItem))
    (tr : String → Except Unit String) (ts : String) (idx i fuel : Nat)
    (raw_news : List NewsItem)
    (hfetch : fetchEnv ((idx + i) % newsAgentNames.length) = .ok raw_news) :
    NewsMasterAgent.getNewsAux ticker fetchEnv tr ts idx i (fuel+1)
      = ({ ticker := ticker, count := (raw_news.map (translateItem tr)).length,
           items := raw_news.map (translateItem tr),
           source := newsAgentNames.getD ((idx + i) % newsAgentNames.length) "",
           timestamp := some ts }, (idx + 1) % newsAgentNames.length) := by
  simp only [NewsMasterAgent.getNewsAux, hfetch]

/-- C10.  `get_news` always returns a dictionary (provider exceptions are
caught inside the loop) in which `count` equals the length of `items`; and
when all three providers fail it returns count 0, an empty items list and
source `"None"`. -/
theorem get_news_count_matches_items (ticker : String)
    (fetchEnv : Nat → Except Unit (List NewsItem))
    (tr : String → Except Unit String) (ts : String) (idx : Nat) :
    (NewsMasterAgent.get_news ticker fetchEnv tr ts idx).1.count
      = (NewsMasterAgent.get_news ticker fetchEnv tr ts idx).1.items.length
    ∧ ((∀ p, fetchEnv p = .error ()) →
        (NewsMasterAgent.get_news ticker fetchEnv tr ts idx).1
          = { ticker := ticker, count := 0, items := [], source := "None" }) := by
  constructor
  · exact getNewsAux_count ticker fetchEnv tr ts idx newsAgentNames.length 0
  · intro h
    have := getNewsAux_all_fail ticker fetchEnv tr ts idx h newsAgentNames.length 0
    rw [NewsMasterAgent.get_news, this]

/-- Witness for C10: with all three providers failing, the concrete call
returns the count-0 dictionary with source `"None"`. -/
theorem get_news_count_matches_items_witness :
    (NewsMasterAgent.get_news "NVDA" (fun _ => .error ()) (fun s => .ok s) "T" 0).1
      = { ticker := "NVDA", count := 0, items := [], source := "None" } :=
  (get_news_count_matches_items "NVDA" (fun _ => .error ()) (fun s => .ok s) "T" 0).2
    (fun _ => rfl)

/-- C9.  When a provider fetch succeeds, every item whose translation step
fails is included in the returned items list unchanged at its original
position — the request does not fail and the item is not dropped. -/
theorem translation_failure_swallowed (ticker : String)
    (fetchEnv : Nat → Except Unit (List NewsItem))
    (tr : String → Except Unit String) (ts : String) (idx : Nat)
    (raw_news : List NewsItem)
    (hfetch : fetchEnv (idx % newsAgentNames.length) = .ok raw_news) :
    (NewsMasterAgent.get_news ticker fetchEnv tr ts idx).1.items
        = raw_news.map (translateItem tr)
    ∧ (NewsMasterAgent.get_news ticker fetchEnv tr ts idx).1.items.length
        = raw_news.length
    ∧ ∀ (k : Nat) (hk : k < raw_news.length),
        tr (raw_news.get ⟨k, hk⟩).headline = .error () →
        (NewsMasterAgent.get_news ticker fetchEnv tr ts idx).1.items[k]?
          = some (raw_news.get ⟨k, hk⟩) := by
  have hmain := getNewsAux_first_ok ticker fetchEnv tr ts idx 0 2 raw_news hfetch
  have hg : NewsMasterAgent.get_news ticker fetchEnv tr ts idx
      = NewsMasterAgent.getNewsAux ticker fetchEnv tr ts idx 0 (2+1) := rfl
  have hitems : (NewsMasterAgent.get_news ticker fetchEnv tr ts idx).1.items
      = raw_news.map (translateItem tr) := by
    rw [hg, hmain]
  refine ⟨hitems, by rw [hitems, List.length_map], ?_⟩
  intro k hk htr
  rw [hitems, List.getElem?_map, List.getElem?_eq_getElem hk]
  have : translateItem tr raw_news[k] = raw_news[k] := by
    simp only [translateItem]
    rw [show (raw_news.get ⟨k, hk⟩).headline = raw_news[k].headline from rfl] at htr
    rw [htr]
  simp [this]

/-- Witness for C9: a concrete item whose translation fails is returned
unchanged at position 0. -/
theorem translation_failure_swallowed_witness :
    (NewsMasterAgent.get_news "NVDA"
        (fun _ => .ok [{ headline := "Fed", url := "u", datetime := "d",
                         source := "Yahoo Finance" }])
        (fun _ => .error ()) "T" 0).1.items[0]?
      = some { headline := "Fed", url := "u", datetime := "d",
               source := "Yahoo Finance" } :=
  (translation_failure_swallowed "NVDA"
      (fun _ => .ok [{ headline := "Fed", url := "u", datetime := "d",
                       source := "Yahoo Finance" }])
      (fun _ => .error ()) "T" 0
      [{ headline := "Fed", url := "u", datetime := "d", source := "Yahoo Finance" }]
      rfl).2.2 0 (by decide) rfl
